import Mathlib

/-
Verification of the xpipe repository (src/xpipe.c, first revision, the one
the line references of the specification point at).

The program reads stdin into a bounded buffer, and whenever the buffer fills
up or a read times out it flushes the prefix of the pending bytes up to and
including the last newline to a freshly spawned child process; at end of
stream the whole remainder is flushed.  The shallow embedding below models:

  * find_last       (xpipe.c lines 241-251)
  * pipe_data       (xpipe.c lines 275-302), with the OS environment of one
                    child invocation abstracted by a ChildEnv record,
  * pipe_lines      (xpipe.c lines 259-270),
  * run             (xpipe.c lines 130-172), with the input stream abstracted
                    by a list of read events (what each try_read call
                    returns) and the children by a list of ChildEnv records,
  * parse_uint / parse_size / parse_duration (xpipe.c lines 178-236), on top
                    of a model of strtoimax in base 10,
  * init            (xpipe.c lines 78-120), on top of a model of
                    getopt "b:t:h",
  * a timed variant of run (runTimed) in which each read event carries its
    absolute arrival time and the timeout handling of try_read/wait_input
    (xpipe.c lines 365-401) is explicit: every call waits up to the same
    configured number of seconds, as the C code passes the constant
    xpipe->timeout to select on every call.

Bytes are modelled as natural numbers; the newline byte is 10.
-/

namespace Xpipe

/-- Environment of one pipe_data call: whether open_pipe, write_all, close
and waitpid succeed, and the exit information of the child (WIFEXITED and
WEXITSTATUS of the collected status). -/
structure ChildEnv where
  spawn_ok : Bool
  write_ok : Bool
  close_ok : Bool
  wait_ok : Bool
  ifexited : Bool
  exitstatus : Nat
deriving DecidableEq

/-- Environment in which every step of a child invocation succeeds and the
child exits normally with status 0. -/
def okEnv : ChildEnv := ⟨true, true, true, true, true, 0⟩

/-- Model of pipe_data (xpipe.c lines 275-302): the chain of early returns of
the C function.  Returns true for the C result 0 (success) and false for -1.
The bytes written to the child are accounted for in the run model, not here,
since the C function's result does not depend on them. -/
def pipe_data (env : ChildEnv) : Bool :=
  if env.spawn_ok = false then false
  else if env.write_ok = false then false
  else if env.close_ok = false then false
  else if env.wait_ok = false then false
  else if env.ifexited = true ∧ env.exitstatus ≠ 0 then false
  else true

/-- Model of find_last (xpipe.c lines 241-251): index of the last occurrence
of ch in data, or -1 if ch does not occur, as in the C function. -/
def find_last (data : List Nat) (ch : Nat) : Int :=
  match data with
  | [] => -1
  | x :: xs =>
      let r := find_last xs ch
      if 0 ≤ r then r + 1
      else if x = ch then 0 else -1

/-- Model of pipe_lines (xpipe.c lines 259-270).  First component is the C
return value: the number of bytes piped, or -1 when pipe_data fails (0 when
there is no newline, in which case no child is invoked).  Second component is
the list of byte ranges handed to child invocations by this call (empty or a
single range: the prefix up to and including the last newline). -/
def pipe_lines (env : ChildEnv) (data : List Nat) : Int × List (List Nat) :=
  let end_pos := find_last data 10
  if end_pos = -1 then (0, [])
  else
    let use := end_pos.toNat + 1
    if pipe_data env then ((use : Int), [data.take use])
    else (-1, [data.take use])

inductive Outcome where
  | ok
  | readErr
  | pipeErr
  | bufFull
deriving DecidableEq

/-- Result of the flush block of run (xpipe.c lines 150-163): whether the run
aborts (and with which outcome), the new pending bytes, the byte ranges
delivered to children, and the remaining child environments. -/
structure FlushOut where
  abort : Option Outcome
  pending : List Nat
  delivered : List (List Nat)
  envs : List ChildEnv
deriving DecidableEq

/-- Model of xpipe.c lines 150-163: call pipe_lines on the pending bytes,
abort on error, drop the used prefix (the memmove), and abort with the
buffer-full error when the buffer is still completely full afterwards. -/
def flushDecision (bufsize : Nat) (envs : List ChildEnv) (pending : List Nat) :
    FlushOut :=
  let r := pipe_lines (envs.headD okEnv) pending
  let envs' := if r.2 = [] then envs else envs.tail
  if r.1 = -1 then
    ⟨some .pipeErr, pending.drop (r.2.headD []).length, r.2, envs'⟩
  else
    let pending' := pending.drop r.1.toNat
    if pending'.length = bufsize then ⟨some .bufFull, pending', r.2, envs'⟩
    else ⟨none, pending', r.2, envs'⟩

/-- Result of a whole run: final outcome, the byte ranges passed to the child
invocations in order, all bytes read from the input, and the bytes that were
read but never handed to any child. -/
structure RunResult where
  outcome : Outcome
  chunks : List (List Nat)
  consumed : List Nat
  pending : List Nat
deriving DecidableEq

/-- Model of xpipe.c lines 166-169: after end of stream, pipe the whole
remainder (if any) to one last child invocation. -/
def finalFlush (envs : List ChildEnv) (pending : List Nat)
    (chunks : List (List Nat)) (consumed : List Nat) : RunResult :=
  if pending = [] then ⟨.ok, chunks, consumed, []⟩
  else if pipe_data (envs.headD okEnv) then ⟨.ok, chunks ++ [pending], consumed, []⟩
  else ⟨.pipeErr, chunks ++ [pending], consumed, []⟩

/-- What one successful try_read with the returned bytes b does to the loop
state (xpipe.c lines 135-163): the read fills at most the free space of the
buffer, zero bytes read means end of stream, and a read that fills the buffer
triggers the flush block. -/
inductive StepRes where
  | done (r : RunResult)
  | next (envs : List ChildEnv) (pending : List Nat)
      (chunks : List (List Nat)) (consumed : List Nat)
deriving DecidableEq

def readStep (bufsize : Nat) (envs : List ChildEnv) (pending : List Nat)
    (chunks : List (List Nat)) (consumed : List Nat) (b : List Nat) : StepRes :=
  let b := b.take (bufsize - pending.length)
  if b = [] then .done (finalFlush envs pending chunks consumed)
  else
    let pending' := pending ++ b
    let consumed' := consumed ++ b
    if pending'.length = bufsize then
      let f := flushDecision bufsize envs pending'
      match f.abort with
      | some o => .done ⟨o, chunks ++ f.delivered, consumed', f.pending⟩
      | none => .next f.envs f.pending (chunks ++ f.delivered) consumed'
    else .next envs pending' chunks consumed'

/-- One event of the input stream, as seen by a try_read call of run:
either the bytes that the read returns (an empty list is end of stream, as
read returning 0), a timed-out wait (try_read returning -1 with EWOULDBLOCK),
or a read error (try_read returning -1 with another errno). -/
inductive Ev where
  | read (bytes : List Nat)
  | timeout
  | rerror
deriving DecidableEq

/-- Model of the main loop of run (xpipe.c lines 130-172) over a list of read
events.  An exhausted event list behaves as end of stream.  On a timeout the
loop enters the flush block with zero new bytes, exactly as the C code turns
EWOULDBLOCK into nb_read = 0. -/
def runAux (bufsize : Nat) (envs : List ChildEnv) (pending : List Nat)
    (chunks : List (List Nat)) (consumed : List Nat) : List Ev → RunResult
  | [] => finalFlush envs pending chunks consumed
  | .rerror :: _ => ⟨.readErr, chunks, consumed, pending⟩
  | .timeout :: evs =>
      let f := flushDecision bufsize envs pending
      match f.abort with
      | some o => ⟨o, chunks ++ f.delivered, consumed, f.pending⟩
      | none => runAux bufsize f.envs f.pending (chunks ++ f.delivered) consumed evs
  | .read b :: evs =>
      match readStep bufsize envs pending chunks consumed b with
      | .done r => r
      | .next envs' pending' chunks' consumed' =>
          runAux bufsize envs' pending' chunks' consumed' evs

/-- Model of run (xpipe.c lines 130-172) from the initial state avail = 0. -/
def run (bufsize : Nat) (evs : List Ev) (envs : List ChildEnv) : RunResult :=
  runAux bufsize envs [] [] [] evs

/-! Number parsing (xpipe.c lines 178-236) on top of a model of strtoimax. -/

/-- Character class of isspace in the C locale, as consulted by strtoimax. -/
def c_isspace (c : Char) : Bool :=
  c == ' ' || c == '\t' || c == '\n' || c == '\x0b' || c == '\x0c' || c == '\r'

def INTMAX_MAX : Int := 9223372036854775807

def INTMAX_MIN : Int := -9223372036854775808

def SIZE_MAX : Nat := 18446744073709551615

/-- Model of strtoimax(str, &end, 10) on a 64-bit intmax_t: skip isspace
characters, then one optional sign, then the longest run of decimal digits.
Returns the (range-clamped) value, the number of characters consumed up to
the end pointer, and whether the value overflowed the intmax_t range (the
ERANGE condition).  When no digits are found the end pointer equals str, so
the consumed count is 0 and the value 0. -/
def strtoimax10 (s : List Char) : Int × Nat × Bool :=
  let ws := s.dropWhile c_isspace
  let sgn : Int :=
    match ws with
    | '-' :: _ => -1
    | _ => 1
  let body : List Char :=
    match ws with
    | '-' :: r => r
    | '+' :: r => r
    | _ => ws
  let digits := body.takeWhile Char.isDigit
  if digits = [] then (0, 0, false)
  else
    let n : Nat := digits.foldl (fun a c => a * 10 + (c.toNat - 48)) 0
    let v : Int := sgn * n
    let consumed := s.length - (body.length - digits.length)
    if v > INTMAX_MAX then (INTMAX_MAX, consumed, true)
    else if v < INTMAX_MIN then (INTMAX_MIN, consumed, true)
    else (v, consumed, false)

/-- Model of parse_uint (xpipe.c lines 209-236): the chain of early returns
after the strtoimax call.  Returns some value for the C result 0 (with the
parsed value stored) and none for -1. -/
def parse_uint (s : List Char) (limit : Nat) : Option Nat :=
  let r := strtoimax10 s
  if r.2.1 = 0 then none
  else if r.2.1 ≠ s.length then none
  else if (r.1 = INTMAX_MAX ∨ r.1 = INTMAX_MIN) ∧ r.2.2 = true then none
  else if r.1 < 0 then none
  else if r.1.toNat > limit then none
  else some r.1.toNat

/-- Model of parse_size (xpipe.c lines 178-188). -/
def parse_size (s : List Char) : Option Nat :=
  parse_uint s SIZE_MAX

/-- Model of parse_duration (xpipe.c lines 194-204). -/
def parse_duration (s : List Char) : Option Nat :=
  parse_uint s 0x7fffffff

/-! Configuration (xpipe.c lines 78-120). -/

/-- Configuration record built by init: buffer size, optional timeout (none
models the (time_t)-1 sentinel meaning no timeout), and the command argument
vector (everything after the recognised options). -/
structure Config where
  bufsize : Nat
  timeout : Option Nat
  argv : List (List Char)
deriving DecidableEq

inductive InitResult where
  | ok (cfg : Config)
  | help
  | err
deriving DecidableEq

/-- Model of the getopt "b:t:h" loop of init (xpipe.c lines 87-111) in POSIX
mode: option parsing stops at "--" or at the first argument that is not an
option (a token not starting with a dash, or a lone dash); an option letter
that requires an argument takes the remainder of its token if non-empty and
the following argument otherwise; -h prints usage and exits 0 (help);
an unknown option letter or a failed parse_size/parse_duration is an error.
The malloc of the buffer is assumed to succeed. -/
def initArgs : List (List Char) → Nat → Option Nat → InitResult
  | [], bs, t => .ok ⟨bs, t, []⟩
  | tok :: rest, bs, t =>
      match tok with
      | ['-', '-'] => .ok ⟨bs, t, rest⟩
      | '-' :: 'h' :: _ => .help
      | '-' :: 'b' :: c :: cs =>
          (match parse_size (c :: cs) with
           | none => .err
           | some v => initArgs rest v t)
      | ['-', 'b'] =>
          (match rest with
           | [] => .err
           | arg :: rest2 =>
               match parse_size arg with
               | none => .err
               | some v => initArgs rest2 v t)
      | '-' :: 't' :: c :: cs =>
          (match parse_duration (c :: cs) with
           | none => .err
           | some v => initArgs rest bs (some v))
      | ['-', 't'] =>
          (match rest with
           | [] => .err
           | arg :: rest2 =>
               match parse_duration arg with
               | none => .err
               | some v => initArgs rest2 bs (some v))
      | '-' :: _ :: _ => .err
      | _ => .ok ⟨bs, t, tok :: rest⟩

/-- Model of init (xpipe.c lines 78-120) on the command-line arguments after
the program name, starting from the defaults bufsize = 8192 and no
timeout. -/
def init (args : List (List Char)) : InitResult :=
  initArgs args 8192 none

/-! Timed model of the loop, making the timeout handling of try_read and
wait_input (xpipe.c lines 365-401) explicit. -/

/-- Iterated timed-out waits: k consecutive select timeouts, each sending the
loop through its flush block once (xpipe.c lines 150-163) with zero new
bytes, before the next data arrives. -/
def doTimeouts (bufsize : Nat) :
    Nat → List ChildEnv → List Nat → List (List Nat) →
      Option Outcome × List ChildEnv × List Nat × List (List Nat)
  | 0, envs, pending, chunks => (none, envs, pending, chunks)
  | k + 1, envs, pending, chunks =>
      let f := flushDecision bufsize envs pending
      match f.abort with
      | some o => (some o, f.envs, f.pending, chunks ++ f.delivered)
      | none => doTimeouts bufsize k f.envs f.pending (chunks ++ f.delivered)

/-- Timed model of the main loop with a configured timeout of t seconds.
The schedule lists the arrivals of input data as pairs of absolute arrival
time and the bytes then read; an empty byte list is end of stream.  Every
try_read call waits up to t seconds afresh, because the C code passes the
constant xpipe->timeout to select in wait_input on every call (xpipe.c lines
135-137, 372-401): a wait starting at time `now` for data arriving at time a
times out while a > now + (k+1) * t, that is (a - now - 1) / t times, and
each timeout sends the loop through its flush block.  The busy-polling
degenerate case t = 0 is not modelled (the division then gives 0, so the
data is read immediately). -/
def runTimedAux (bufsize t : Nat) (now : Nat) (envs : List ChildEnv)
    (pending : List Nat) (chunks : List (List Nat)) (consumed : List Nat) :
    List (Nat × List Nat) → RunResult
  | [] => finalFlush envs pending chunks consumed
  | (a, b) :: sched =>
      let k := if a ≤ now + t then 0 else (a - now - 1) / t
      match doTimeouts bufsize k envs pending chunks with
      | (some o, _, pending', chunks') => ⟨o, chunks', consumed, pending'⟩
      | (none, envs', pending', chunks') =>
          match readStep bufsize envs' pending' chunks' consumed b with
          | .done r => r
          | .next e2 p2 c2 co2 =>
              runTimedAux bufsize t (max now a) e2 p2 c2 co2 sched

/-- Deadline-based timeout discipline, following the specification's words
rather than src/xpipe.c (spec sections 3 and 4.1: a deadline is armed exactly
once per flush cycle, at the first byte received after a flush, stays fixed
until the next flush — later reads do not extend it — and is cleared on
every flush).  A read that completes while data is pending with no deadline
armed arms the deadline at its arrival time plus t; a set deadline that
passes before the next arrival forces one flush decision with zero new bytes
and is cleared.  This definition exists to compare the per-read timeout that
the code implements against the claimed fixed-deadline behavior. -/
def runDeadlineSpec (bufsize t : Nat) (deadline : Option Nat)
    (envs : List ChildEnv) (pending : List Nat) (chunks : List (List Nat))
    (consumed : List Nat) : List (Nat × List Nat) → RunResult
  | [] => finalFlush envs pending chunks consumed
  | (a, b) :: sched =>
      match deadline with
      | some d =>
          if d < a then
            let f := flushDecision bufsize envs pending
            match f.abort with
            | some o => ⟨o, chunks ++ f.delivered, consumed, f.pending⟩
            | none =>
                match readStep bufsize f.envs f.pending (chunks ++ f.delivered)
                    consumed b with
                | .done r => r
                | .next e2 p2 c2 co2 =>
                    let dl :=
                      if c2.length ≠ (chunks ++ f.delivered).length then none
                      else if p2 = [] then none else some (a + t)
                    runDeadlineSpec bufsize t dl e2 p2 c2 co2 sched
          else
            match readStep bufsize envs pending chunks consumed b with
            | .done r => r
            | .next e2 p2 c2 co2 =>
                let dl := if c2.length ≠ chunks.length then none else some d
                runDeadlineSpec bufsize t dl e2 p2 c2 co2 sched
      | none =>
          match readStep bufsize envs pending chunks consumed b with
          | .done r => r
          | .next e2 p2 c2 co2 =>
              let dl :=
                if c2.length ≠ chunks.length then none
                else if p2 = [] then none else some (a + t)
              runDeadlineSpec bufsize t dl e2 p2 c2 co2 sched

/-- Predicate on a timed schedule: every arrival is no earlier than the
previous read completion (time `now`) and at most t seconds after it. -/
def gapsOk (t : Nat) : Nat → List (Nat × List Nat) → Bool
  | _, [] => true
  | now, (a, _) :: sched => (now ≤ a && a ≤ now + t) && gapsOk t a sched

/-! Basic facts about find_last. -/

theorem find_last_ge (data : List Nat) (ch : Nat) : -1 ≤ find_last data ch := by
  induction data with
  | nil => simp [find_last]
  | cons x xs ih =>
      simp only [find_last]
      split
      · omega
      · split <;> omega

theorem find_last_cons (x : Nat) (xs : List Nat) (ch : Nat) :
    find_last (x :: xs) ch =
      if 0 ≤ find_last xs ch then find_last xs ch + 1
      else if x = ch then 0 else -1 := rfl

theorem find_last_neg (data : List Nat) (ch : Nat) :
    find_last data ch = -1 ↔ ch ∉ data := by
  induction data with
  | nil => simp [find_last]
  | cons x xs ih =>
      rw [find_last_cons]
      have hge := find_last_ge xs ch
      by_cases hr : 0 ≤ find_last xs ch
      · rw [if_pos hr]
        simp only [List.mem_cons]
        constructor
        · intro h; omega
        · intro h
          have h2 : ch ∉ xs := fun hx => h (Or.inr hx)
          have h3 : find_last xs ch = -1 := ih.mpr h2
          omega
      · rw [if_neg hr]
        have h3 : find_last xs ch = -1 := by omega
        have h4 : ch ∉ xs := ih.mp h3
        by_cases hx : x = ch
        · rw [if_pos hx]
          simp [hx]
        · rw [if_neg hx]
          simp only [List.mem_cons]
          constructor
          · intro _ hc
            rcases hc with hc | hc
            · exact hx hc.symm
            · exact h4 hc
          · intro _; trivial

theorem find_last_get (data : List Nat) (ch : Nat) (h : 0 ≤ find_last data ch) :
    data.get? (find_last data ch).toNat = some ch := by
  induction data with
  | nil => simp [find_last] at h
  | cons x xs ih =>
      by_cases hr : 0 ≤ find_last xs ch
      · have h1 : find_last (x :: xs) ch = find_last xs ch + 1 := by
          rw [find_last_cons, if_pos hr]
        rw [h1]
        have h2 : (find_last xs ch + 1).toNat = (find_last xs ch).toNat + 1 := by
          omega
        rw [h2]
        simpa using ih hr
      · by_cases hx : x = ch
        · have h1 : find_last (x :: xs) ch = 0 := by
            rw [find_last_cons, if_neg hr, if_pos hx]
          rw [h1]
          subst hx
          simp
        · have h1 : find_last (x :: xs) ch = -1 := by
            rw [find_last_cons, if_neg hr, if_neg hx]
          rw [h1] at h
          omega

theorem find_last_after (data : List Nat) (ch : Nat) (h : 0 ≤ find_last data ch) :
    ch ∉ data.drop ((find_last data ch).toNat + 1) := by
  induction data with
  | nil => simp [find_last] at h
  | cons x xs ih =>
      by_cases hr : 0 ≤ find_last xs ch
      · have h1 : find_last (x :: xs) ch = find_last xs ch + 1 := by
          rw [find_last_cons, if_pos hr]
        rw [h1]
        have h2 : (find_last xs ch + 1).toNat = (find_last xs ch).toNat + 1 := by
          omega
        rw [h2]
        simpa using ih hr
      · by_cases hx : x = ch
        · have h1 : find_last (x :: xs) ch = 0 := by
            rw [find_last_cons, if_neg hr, if_pos hx]
          rw [h1]
          simp only [Int.toNat_zero, Nat.zero_add, List.drop_succ_cons,
            List.drop_zero]
          have h3 : find_last xs ch = -1 := by
            have := find_last_ge xs ch; omega
          exact (find_last_neg xs ch).mp h3
        · have h1 : find_last (x :: xs) ch = -1 := by
            rw [find_last_cons, if_neg hr, if_neg hx]
          rw [h1] at h
          omega

theorem getLast?_take_of_get? (data : List Nat) (p : Nat) (a : Nat)
    (h : data.get? p = some a) : (data.take (p + 1)).getLast? = some a := by
  induction data generalizing p with
  | nil => simp at h
  | cons x xs ih =>
      cases p with
      | zero =>
          simp at h
          subst h
          simp
      | succ p =>
          simp only [List.get?_cons_succ] at h
          have hlt : p < xs.length := (List.get?_eq_some.mp h).1
          obtain ⟨y, ys, hxs⟩ : ∃ y ys, xs = y :: ys := by
            cases xs with
            | nil => simp at hlt
            | cons y ys => exact ⟨y, ys, rfl⟩
          subst hxs
          have := ih p h
          simp only [List.take_succ_cons]
          cases p with
          | zero =>
              simp at h
              subst h
              simp
          | succ q =>
              rw [List.getLast?_cons_cons]
              simpa using this

/-! Basic facts about pipe_lines, flushDecision, finalFlush and readStep. -/

theorem pipe_lines_no_newline (env : ChildEnv) (data : List Nat)
    (h : find_last data 10 = -1) : pipe_lines env data = (0, []) := by
  unfold pipe_lines
  simp [h]

theorem pipe_lines_ok (env : ChildEnv) (data : List Nat)
    (h : 0 ≤ find_last data 10) (hp : pipe_data env = true) :
    pipe_lines env data =
      ((((find_last data 10).toNat + 1 : Nat) : Int),
       [data.take ((find_last data 10).toNat + 1)]) := by
  have h1 : ¬ find_last data 10 = -1 := by omega
  unfold pipe_lines
  simp [h1, hp]

theorem pipe_lines_err (env : ChildEnv) (data : List Nat)
    (h : 0 ≤ find_last data 10) (hp : pipe_data env = false) :
    pipe_lines env data =
      (-1, [data.take ((find_last data 10).toNat + 1)]) := by
  have h1 : ¬ find_last data 10 = -1 := by omega
  unfold pipe_lines
  simp [h1, hp]

theorem flushDecision_no_newline (bufsize : Nat) (envs : List ChildEnv)
    (pending : List Nat) (h : find_last pending 10 = -1) :
    flushDecision bufsize envs pending =
      if pending.length = bufsize then ⟨some .bufFull, pending, [], envs⟩
      else ⟨none, pending, [], envs⟩ := by
  unfold flushDecision
  rw [pipe_lines_no_newline _ _ h]
  simp

theorem flushDecision_ok (bufsize : Nat) (envs : List ChildEnv)
    (pending : List Nat) (h : 0 ≤ find_last pending 10)
    (hp : pipe_data (envs.headD okEnv) = true) :
    flushDecision bufsize envs pending =
      (if (pending.drop ((find_last pending 10).toNat + 1)).length = bufsize then
         ⟨some .bufFull, pending.drop ((find_last pending 10).toNat + 1),
          [pending.take ((find_last pending 10).toNat + 1)], envs.tail⟩
       else
         ⟨none, pending.drop ((find_last pending 10).toNat + 1),
          [pending.take ((find_last pending 10).toNat + 1)], envs.tail⟩) := by
  unfold flushDecision
  rw [pipe_lines_ok _ _ h hp]
  simp only []
  have h2 : ¬ ([pending.take ((find_last pending 10).toNat + 1)] =
      ([] : List (List Nat))) := by simp
  have h3 : ¬ ((((find_last pending 10).toNat + 1 : Nat) : Int) = -1) := by omega
  rw [if_neg h2, if_neg h3]
  have h4 : ((((find_last pending 10).toNat + 1 : Nat) : Int)).toNat =
      (find_last pending 10).toNat + 1 := by omega
  rw [h4]

theorem flushDecision_err (bufsize : Nat) (envs : List ChildEnv)
    (pending : List Nat) (h : 0 ≤ find_last pending 10)
    (hp : pipe_data (envs.headD okEnv) = false) :
    flushDecision bufsize envs pending =
      ⟨some .pipeErr, pending.drop ((find_last pending 10).toNat + 1),
       [pending.take ((find_last pending 10).toNat + 1)], envs.tail⟩ := by
  have hlt : (find_last pending 10).toNat < pending.length :=
    (List.get?_eq_some.mp (find_last_get pending 10 h)).1
  unfold flushDecision
  rw [pipe_lines_err _ _ h hp]
  simp only []
  have h2 : ¬ ([pending.take ((find_last pending 10).toNat + 1)] =
      ([] : List (List Nat))) := by simp
  rw [if_neg h2, if_pos trivial]
  have h3 : (([pending.take ((find_last pending 10).toNat + 1)].headD
      []).length) = (find_last pending 10).toNat + 1 := by
    simp [List.length_take]
    omega
  rw [h3]

theorem flushDecision_join (bufsize : Nat) (envs : List ChildEnv)
    (pending : List Nat) :
    (flushDecision bufsize envs pending).delivered.flatten ++
      (flushDecision bufsize envs pending).pending = pending := by
  by_cases h : find_last pending 10 = -1
  · rw [flushDecision_no_newline bufsize envs pending h]
    split <;> simp
  · have h0 : 0 ≤ find_last pending 10 := by
      have := find_last_ge pending 10; omega
    cases hp : pipe_data (envs.headD okEnv) with
    | true =>
        rw [flushDecision_ok bufsize envs pending h0 hp]
        split <;> simp [List.take_append_drop]
    | false =>
        rw [flushDecision_err bufsize envs pending h0 hp]
        simp [List.take_append_drop]

theorem flushDecision_abort (bufsize : Nat) (envs : List ChildEnv)
    (pending : List Nat) (o : Outcome)
    (h : (flushDecision bufsize envs pending).abort = some o) :
    o = .bufFull ∨ o = .pipeErr := by
  by_cases hn : find_last pending 10 = -1
  · rw [flushDecision_no_newline bufsize envs pending hn] at h
    split at h <;> simp_all
  · have h0 : 0 ≤ find_last pending 10 := by
      have := find_last_ge pending 10; omega
    cases hp : pipe_data (envs.headD okEnv) with
    | true =>
        rw [flushDecision_ok bufsize envs pending h0 hp] at h
        split at h <;> simp_all
    | false =>
        rw [flushDecision_err bufsize envs pending h0 hp] at h
        simp_all

theorem flushDecision_delivered_newline (bufsize : Nat) (envs : List ChildEnv)
    (pending : List Nat) (c : List Nat)
    (h : c ∈ (flushDecision bufsize envs pending).delivered) :
    c.getLast? = some 10 := by
  by_cases hn : find_last pending 10 = -1
  · rw [flushDecision_no_newline bufsize envs pending hn] at h
    split at h <;> simp_all
  · have h0 : 0 ≤ find_last pending 10 := by
      have := find_last_ge pending 10; omega
    have hget := find_last_get pending 10 h0
    have htake := getLast?_take_of_get? pending (find_last pending 10).toNat 10 hget
    cases hp : pipe_data (envs.headD okEnv) with
    | true =>
        rw [flushDecision_ok bufsize envs pending h0 hp] at h
        split at h <;> (simp at h; subst h; exact htake)
    | false =>
        rw [flushDecision_err bufsize envs pending h0 hp] at h
        simp at h; subst h; exact htake

theorem flushDecision_retained_no_newline (bufsize : Nat) (envs : List ChildEnv)
    (pending : List Nat)
    (h : (flushDecision bufsize envs pending).delivered ≠ []) :
    (10 : Nat) ∉ (flushDecision bufsize envs pending).pending := by
  by_cases hn : find_last pending 10 = -1
  · rw [flushDecision_no_newline bufsize envs pending hn] at h ⊢
    split at h <;> simp_all
  · have h0 : 0 ≤ find_last pending 10 := by
      have := find_last_ge pending 10; omega
    have hafter := find_last_after pending 10 h0
    cases hp : pipe_data (envs.headD okEnv) with
    | true =>
        rw [flushDecision_ok bufsize envs pending h0 hp]
        split <;> simpa using hafter
    | false =>
        rw [flushDecision_err bufsize envs pending h0 hp]
        simpa using hafter

theorem finalFlush_pending (envs : List ChildEnv) (pending : List Nat)
    (chunks : List (List Nat)) (consumed : List Nat) :
    (finalFlush envs pending chunks consumed).pending = [] := by
  unfold finalFlush
  split
  · rfl
  · split <;> rfl

theorem finalFlush_join (envs : List ChildEnv) (pending : List Nat)
    (chunks : List (List Nat)) (consumed : List Nat) :
    (finalFlush envs pending chunks consumed).consumed = consumed ∧
    (finalFlush envs pending chunks consumed).chunks.flatten =
      chunks.flatten ++ pending := by
  unfold finalFlush
  split
  · simp_all
  · split <;> simp

theorem finalFlush_dropLast_newline (envs : List ChildEnv) (pending : List Nat)
    (chunks : List (List Nat)) (consumed : List Nat)
    (hc : ∀ c ∈ chunks, c.getLast? = some 10) :
    ∀ c ∈ (finalFlush envs pending chunks consumed).chunks.dropLast,
      c.getLast? = some 10 := by
  unfold finalFlush
  split
  · intro c hmem
    exact hc c (List.mem_of_mem_dropLast hmem)
  · split <;>
      (intro c hmem
       simp only [List.dropLast_concat] at hmem
       exact hc c hmem)

theorem readStep_done_inv (bufsize : Nat) (envs : List ChildEnv)
    (pending : List Nat) (chunks : List (List Nat)) (consumed : List Nat)
    (b : List Nat) (r : RunResult)
    (h : readStep bufsize envs pending chunks consumed b = .done r)
    (hinv : consumed = chunks.flatten ++ pending) :
    r.consumed = r.chunks.flatten ++ r.pending ∧
      (r.outcome = .ok → r.pending = []) := by
  unfold readStep at h
  simp only [] at h
  split at h
  · have hr : r = finalFlush envs pending chunks consumed := by
      injection h with h; exact h.symm
    subst hr
    obtain ⟨hc, hf⟩ := finalFlush_join envs pending chunks consumed
    refine ⟨?_, fun _ => finalFlush_pending envs pending chunks consumed⟩
    rw [hc, hf, finalFlush_pending]
    simpa using hinv
  · split at h
    · rename_i hfull
      split at h
      · rename_i o heq
        have hr : r = ⟨o, chunks ++ (flushDecision bufsize envs
            (pending ++ b.take (bufsize - pending.length))).delivered,
            consumed ++ b.take (bufsize - pending.length),
            (flushDecision bufsize envs
              (pending ++ b.take (bufsize - pending.length))).pending⟩ := by
          injection h with h; exact h.symm
        subst hr
        constructor
        · simp only [List.flatten_append, List.append_assoc]
          rw [flushDecision_join]
          simp [hinv]
        · intro hok
          rcases flushDecision_abort _ _ _ o heq with h1 | h1 <;> simp_all
      · exact absurd h (by simp)
    · exact absurd h (by simp)

theorem readStep_next_inv (bufsize : Nat) (envs : List ChildEnv)
    (pending : List Nat) (chunks : List (List Nat)) (consumed : List Nat)
    (b : List Nat) (envs' : List ChildEnv) (pending' : List Nat)
    (chunks' : List (List Nat)) (consumed' : List Nat)
    (h : readStep bufsize envs pending chunks consumed b =
      .next envs' pending' chunks' consumed')
    (hinv : consumed = chunks.flatten ++ pending) :
    consumed' = chunks'.flatten ++ pending' := by
  unfold readStep at h
  simp only [] at h
  split at h
  · exact absurd h (by simp)
  · split at h
    · split at h
      · exact absurd h (by simp)
      · rename_i heq
        injection h with h1 h2 h3 h4
        subst h1; subst h2; subst h3; subst h4
        simp only [List.flatten_append, List.append_assoc]
        rw [flushDecision_join]
        simp [hinv]
    · injection h with h1 h2 h3 h4
      subst h1; subst h2; subst h3; subst h4
      simp [hinv]

theorem readStep_done_newline (bufsize : Nat) (envs : List ChildEnv)
    (pending : List Nat) (chunks : List (List Nat)) (consumed : List Nat)
    (b : List Nat) (r : RunResult)
    (h : readStep bufsize envs pending chunks consumed b = .done r)
    (hc : ∀ c ∈ chunks, c.getLast? = some 10) :
    ∀ c ∈ r.chunks.dropLast, c.getLast? = some 10 := by
  unfold readStep at h
  simp only [] at h
  split at h
  · have hr : r = finalFlush envs pending chunks consumed := by
      injection h with h; exact h.symm
    subst hr
    exact finalFlush_dropLast_newline envs pending chunks consumed hc
  · split at h
    · split at h
      · rename_i o heq
        have hr : r = ⟨o, chunks ++ (flushDecision bufsize envs
            (pending ++ b.take (bufsize - pending.length))).delivered,
            consumed ++ b.take (bufsize - pending.length),
            (flushDecision bufsize envs
              (pending ++ b.take (bufsize - pending.length))).pending⟩ := by
          injection h with h; exact h.symm
        subst hr
        intro c hmem
        have hmem2 := List.mem_of_mem_dropLast hmem
        simp only [List.mem_append] at hmem2
        rcases hmem2 with h1 | h1
        · exact hc c h1
        · exact flushDecision_delivered_newline _ _ _ c h1
      · exact absurd h (by simp)
    · exact absurd h (by simp)

theorem readStep_next_newline (bufsize : Nat) (envs : List ChildEnv)
    (pending : List Nat) (chunks : List (List Nat)) (consumed : List Nat)
    (b : List Nat) (envs' : List ChildEnv) (pending' : List Nat)
    (chunks' : List (List Nat)) (consumed' : List Nat)
    (h : readStep bufsize envs pending chunks consumed b =
      .next envs' pending' chunks' consumed')
    (hc : ∀ c ∈ chunks, c.getLast? = some 10) :
    ∀ c ∈ chunks', c.getLast? = some 10 := by
  unfold readStep at h
  simp only [] at h
  split at h
  · exact absurd h (by simp)
  · split at h
    · split at h
      · exact absurd h (by simp)
      · injection h with h1 h2 h3 h4
        subst h3
        intro c hmem
        simp only [List.mem_append] at hmem
        rcases hmem with h5 | h5
        · exact hc c h5
        · exact flushDecision_delivered_newline _ _ _ c h5
    · injection h with h1 h2 h3 h4
      subst h3
      exact hc

/-! Run-level invariants. -/

theorem runAux_inv (bufsize : Nat) (evs : List Ev) :
    ∀ (envs : List ChildEnv) (pending : List Nat) (chunks : List (List Nat))
      (consumed : List Nat), consumed = chunks.flatten ++ pending →
    (runAux bufsize envs pending chunks consumed evs).consumed =
        (runAux bufsize envs pending chunks consumed evs).chunks.flatten ++
        (runAux bufsize envs pending chunks consumed evs).pending ∧
      ((runAux bufsize envs pending chunks consumed evs).outcome = .ok →
        (runAux bufsize envs pending chunks consumed evs).pending = []) := by
  induction evs with
  | nil =>
      intro envs pending chunks consumed hinv
      simp only [runAux]
      obtain ⟨hc, hf⟩ := finalFlush_join envs pending chunks consumed
      refine ⟨?_, fun _ => finalFlush_pending envs pending chunks consumed⟩
      rw [hc, hf, finalFlush_pending]
      simpa using hinv
  | cons ev evs ih =>
      intro envs pending chunks consumed hinv
      cases ev with
      | rerror =>
          simp only [runAux]
          exact ⟨hinv, by intro h; simp at h⟩
      | timeout =>
          simp only [runAux]
          have hkey : consumed =
              (chunks ++ (flushDecision bufsize envs pending).delivered).flatten ++
              (flushDecision bufsize envs pending).pending := by
            rw [List.flatten_append, List.append_assoc, flushDecision_join]
            exact hinv
          split
          · rename_i o heq
            refine ⟨hkey, ?_⟩
            intro hok
            rcases flushDecision_abort _ _ _ o heq with h1 | h1 <;> simp_all
          · exact ih _ _ _ _ hkey
      | read b =>
          simp only [runAux]
          split
          · rename_i r heq
            exact readStep_done_inv bufsize envs pending chunks consumed b r heq hinv
          · rename_i e2 p2 c2 co2 heq
            exact ih _ _ _ _
              (readStep_next_inv bufsize envs pending chunks consumed b
                e2 p2 c2 co2 heq hinv)

theorem runAux_newline (bufsize : Nat) (evs : List Ev) :
    ∀ (envs : List ChildEnv) (pending : List Nat) (chunks : List (List Nat))
      (consumed : List Nat), (∀ c ∈ chunks, c.getLast? = some 10) →
    ∀ c ∈ (runAux bufsize envs pending chunks consumed evs).chunks.dropLast,
      c.getLast? = some 10 := by
  induction evs with
  | nil =>
      intro envs pending chunks consumed hc
      simp only [runAux]
      exact finalFlush_dropLast_newline envs pending chunks consumed hc
  | cons ev evs ih =>
      intro envs pending chunks consumed hc
      cases ev with
      | rerror =>
          simp only [runAux]
          intro c hmem
          exact hc c (List.mem_of_mem_dropLast hmem)
      | timeout =>
          simp only [runAux]
          have hall : ∀ c ∈ chunks ++ (flushDecision bufsize envs pending).delivered,
              c.getLast? = some 10 := by
            intro c hmem
            rcases List.mem_append.mp hmem with h1 | h1
            · exact hc c h1
            · exact flushDecision_delivered_newline _ _ _ c h1
          split
          · intro c hmem
            exact hall c (List.mem_of_mem_dropLast hmem)
          · exact ih _ _ _ _ hall
      | read b =>
          simp only [runAux]
          split
          · rename_i r heq
            exact readStep_done_newline bufsize envs pending chunks consumed b r heq hc
          · rename_i e2 p2 c2 co2 heq
            exact ih _ _ _ _
              (readStep_next_newline bufsize envs pending chunks consumed b
                e2 p2 c2 co2 heq hc)

theorem pipe_lines_delivered_newline (env : ChildEnv) (data : List Nat)
    (c : List Nat) (h : c ∈ (pipe_lines env data).2) :
    c.getLast? = some 10 := by
  by_cases hn : find_last data 10 = -1
  · rw [pipe_lines_no_newline env data hn] at h
    simp at h
  · have h0 : 0 ≤ find_last data 10 := by
      have := find_last_ge data 10; omega
    have hget := find_last_get data 10 h0
    have htake := getLast?_take_of_get? data (find_last data 10).toNat 10 hget
    cases hp : pipe_data env with
    | true =>
        rw [pipe_lines_ok env data h0 hp] at h
        simp at h; subst h; exact htake
    | false =>
        rw [pipe_lines_err env data h0 hp] at h
        simp at h; subst h; exact htake

/-! Theorems for the individual claims. -/

/-- C1: for every run of the main loop, the bytes read from the input are
exactly the concatenation of the byte ranges passed to the child invocations,
in invocation order, followed by the bytes still pending (read but never
handed to any child) — no byte is reordered, lost or duplicated; and when the
run ends without error nothing is left pending, so the concatenation of the
delivered ranges equals the input exactly.  An oversized line makes the run
end with the buffer-full error instead, leaving that line in pending,
undelivered. -/
theorem C1_order_preservation (bufsize : Nat) (evs : List Ev)
    (envs : List ChildEnv) :
    ((run bufsize evs envs).outcome = .ok →
      (run bufsize evs envs).chunks.flatten = (run bufsize evs envs).consumed) ∧
    (run bufsize evs envs).consumed =
      (run bufsize evs envs).chunks.flatten ++ (run bufsize evs envs).pending := by
  obtain ⟨h1, h2⟩ := runAux_inv bufsize evs envs [] [] [] (by simp)
  simp only [run]
  refine ⟨?_, h1⟩
  intro hok
  rw [h1, h2 hok]
  simp

theorem C1_order_preservation_witness :
    (run 4 [Ev.read [97, 10, 98]] []).outcome = .ok ∧
    (run 4 [Ev.read [97, 10, 98]] []).chunks.flatten =
      (run 4 [Ev.read [97, 10, 98]] []).consumed :=
  ⟨by decide, (C1_order_preservation 4 [Ev.read [97, 10, 98]] []).1 (by decide)⟩

/-- C3: when a read fills the buffer completely and the whole pending region
contains no newline byte, the run terminates with the buffer-full outcome,
the delivered chunks are unchanged (no byte of the oversized line reaches any
child, and no child is invoked for it), and the oversized line is left in the
buffer. -/
theorem C3_buffer_full_fatal (bufsize : Nat) (envs : List ChildEnv)
    (pending : List Nat) (chunks : List (List Nat)) (consumed : List Nat)
    (b : List Nat) (evs : List Ev)
    (hb : b ≠ []) (hlen : b.length = bufsize - pending.length)
    (hnl : (10 : Nat) ∉ pending ++ b) :
    runAux bufsize envs pending chunks consumed (Ev.read b :: evs) =
      ⟨.bufFull, chunks, consumed ++ b, pending ++ b⟩ := by
  have hlt : pending.length < bufsize := by
    have : b.length ≠ 0 := fun hh => hb (List.length_eq_zero.mp hh)
    omega
  have htake : b.take (bufsize - pending.length) = b := by
    rw [← hlen]
    exact List.take_length b
  have hfull : (pending ++ b).length = bufsize := by
    rw [List.length_append]
    omega
  have hfd : flushDecision bufsize envs (pending ++ b) =
      ⟨some .bufFull, pending ++ b, [], envs⟩ := by
    rw [flushDecision_no_newline _ _ _ ((find_last_neg _ 10).mpr hnl),
      if_pos hfull]
  have hstep : readStep bufsize envs pending chunks consumed b =
      .done ⟨.bufFull, chunks, consumed ++ b, pending ++ b⟩ := by
    unfold readStep
    simp only [htake]
    rw [if_neg hb, if_pos hfull, hfd]
    simp
  simp [runAux, hstep]

theorem C3_buffer_full_fatal_witness :
    runAux 2 [] [] [] [] [Ev.read [97, 98]] =
      ⟨.bufFull, [], [97, 98], [97, 98]⟩ :=
  C3_buffer_full_fatal 2 [] [] [] [] [97, 98] [] (by decide) (by decide)
    (by decide)

/-- C4: when the flush decision is triggered by a timeout and the pending
bytes contain no newline, no child is invoked and the pending bytes are kept
unchanged: the run continues exactly as if the timeout had not occurred, so
the partial line is concatenated with whatever arrives later. -/
theorem C4_timeout_no_truncation (bufsize : Nat) (envs : List ChildEnv)
    (pending : List Nat) (chunks : List (List Nat)) (consumed : List Nat)
    (evs : List Ev) (hlen : pending.length < bufsize)
    (hnl : (10 : Nat) ∉ pending) :
    runAux bufsize envs pending chunks consumed (Ev.timeout :: evs) =
      runAux bufsize envs pending chunks consumed evs := by
  have hfd : flushDecision bufsize envs pending = ⟨none, pending, [], envs⟩ := by
    rw [flushDecision_no_newline _ _ _ ((find_last_neg _ 10).mpr hnl),
      if_neg (by omega)]
  simp only [runAux, hfd]
  simp

theorem C4_timeout_no_truncation_witness :
    runAux 8 [] [104, 105] [] [104, 105] [Ev.timeout, Ev.read []] =
      runAux 8 [] [104, 105] [] [104, 105] [Ev.read []] :=
  C4_timeout_no_truncation 8 [] [104, 105] [] [104, 105] [Ev.read []]
    (by decide) (by decide)

/-- C5: every byte range delivered to a child, except possibly the last one
(the one a final end-of-stream flush may produce), ends with the newline
byte; and a flush through pipe_lines always hands over a range ending with
the newline byte, since it cuts right after the last newline of the data. -/
theorem C5_newline_boundary (bufsize : Nat) (evs : List Ev)
    (envs : List ChildEnv) (env : ChildEnv) (data : List Nat) :
    (∀ c ∈ (run bufsize evs envs).chunks.dropLast, c.getLast? = some 10) ∧
    (∀ c ∈ (pipe_lines env data).2, c.getLast? = some 10) :=
  ⟨runAux_newline bufsize evs envs [] [] [] (by simp),
   fun c hc => pipe_lines_delivered_newline env data c hc⟩

theorem C5_newline_boundary_witness :
    ([97, 10] : List Nat).getLast? = some 10 :=
  (C5_newline_boundary 2 [Ev.read [97, 10], Ev.read [98]] [] okEnv []).1
    [97, 10] (by decide)

theorem finalFlush_chunks_ne (envs : List ChildEnv) (pending : List Nat)
    (chunks : List (List Nat)) (consumed : List Nat) (h : pending ≠ []) :
    (finalFlush envs pending chunks consumed).chunks = chunks ++ [pending] := by
  unfold finalFlush
  rw [if_neg h]
  split <;> rfl

/-- C7: empty input (end of stream at the very first read) produces no child
invocation, and the one-byte input consisting of the newline byte alone
produces exactly one invocation whose input is exactly that newline byte,
for every positive buffer capacity and every child environment. -/
theorem C7_empty_and_newline_input (bufsize : Nat) (envs : List ChildEnv)
    (h : 0 < bufsize) :
    (run bufsize [Ev.read []] envs).chunks = [] ∧
    (run bufsize [Ev.read [10]] envs).chunks = [[10]] := by
  constructor
  · simp [run, runAux, readStep, finalFlush]
  · obtain ⟨n, rfl⟩ : ∃ n, bufsize = n + 1 := ⟨bufsize - 1, by omega⟩
    by_cases h1 : n = 0
    · subst h1
      have hfl : find_last [10] 10 = 0 := by decide
      have h0 : (0 : Int) ≤ find_last [10] 10 := by rw [hfl]
      cases hp : pipe_data (envs.headD okEnv) with
      | true =>
          have hfd : flushDecision 1 envs [10] = ⟨none, [], [[10]], envs.tail⟩ := by
            rw [flushDecision_ok 1 envs [10] h0 hp, hfl]
            simp
          have hstep : readStep 1 envs [] [] [] [10] =
              .next envs.tail [] [[10]] [10] := by
            unfold readStep
            simp [hfd]
          simp [run, runAux, hstep, finalFlush]
      | false =>
          have hfd : flushDecision 1 envs [10] =
              ⟨some .pipeErr, [], [[10]], envs.tail⟩ := by
            rw [flushDecision_err 1 envs [10] h0 hp, hfl]
            simp
          have hstep : readStep 1 envs [] [] [] [10] =
              .done ⟨.pipeErr, [[10]], [10], []⟩ := by
            unfold readStep
            simp [hfd]
          simp [run, runAux, hstep]
    · have htake : ([10] : List Nat).take (n + 1 - 0) = [10] := by
        apply List.take_of_length_le
        simp
      have hne : ¬ ((([] : List Nat) ++ [10]).length = n + 1) := by
        simp
        omega
      have hstep : readStep (n + 1) envs [] [] [] [10] =
          .next envs [10] [] [10] := by
        unfold readStep
        simp [htake, hne]
        intro h2
        exact absurd h2 h1
      have hch := finalFlush_chunks_ne envs [10] [] [10] (by simp)
      simp [run, runAux, hstep]
      simpa using hch

theorem C7_empty_and_newline_input_witness :
    0 < 1 ∧
      ((run 1 [Ev.read []] []).chunks = [] ∧
       (run 1 [Ev.read [10]] []).chunks = [[10]]) :=
  ⟨by decide, C7_empty_and_newline_input 1 [] (by decide)⟩

/-- C10: whenever pipe_lines pipes a non-empty range (positive return
value), the bytes that run keeps in the buffer afterwards — the suffix
starting right after the piped prefix, which the memmove shifts to the
front — contain no newline byte, because the cut is at the last newline. -/
theorem C10_retained_no_newline (env : ChildEnv) (data : List Nat)
    (hpos : 0 < (pipe_lines env data).1) :
    (10 : Nat) ∉ data.drop (pipe_lines env data).1.toNat := by
  by_cases hn : find_last data 10 = -1
  · rw [pipe_lines_no_newline env data hn] at hpos
    simp at hpos
  · have h0 : 0 ≤ find_last data 10 := by
      have := find_last_ge data 10; omega
    cases hp : pipe_data env with
    | true =>
        rw [pipe_lines_ok env data h0 hp]
        have h4 : ((((find_last data 10).toNat + 1 : Nat) : Int)).toNat =
            (find_last data 10).toNat + 1 := by omega
        simp only [h4]
        exact find_last_after data 10 h0
    | false =>
        rw [pipe_lines_err env data h0 hp] at hpos
        simp at hpos

theorem C10_retained_no_newline_witness :
    (10 : Nat) ∉ ([97, 10, 98] : List Nat).drop
      (pipe_lines okEnv [97, 10, 98]).1.toNat :=
  C10_retained_no_newline okEnv [97, 10, 98] (by decide)

/-- C2 counterexample: when the pipe creation, spawn, write, close and wait
all succeed but the child is terminated by a signal (WIFEXITED false),
pipe_data reports success, although the child did not exit normally with
status code 0 — so success is not equivalent to a normal exit with status 0
as the claim states. -/
theorem C2_counterexample :
    pipe_data ⟨true, true, true, true, false, 9⟩ = true ∧
      (⟨true, true, true, true, false, 9⟩ : ChildEnv).ifexited = false := by
  decide

/-- C2 amended: pipe_data succeeds iff the pipe creation and spawn, the
write, the close and the wait all succeed and it is not the case that the
child exited normally with a non-zero status; a child terminated by a signal
(with a successful wait) is treated as success. -/
theorem C2_pipe_data_success_iff (env : ChildEnv) :
    pipe_data env = true ↔
      (env.spawn_ok = true ∧ env.write_ok = true ∧ env.close_ok = true ∧
       env.wait_ok = true ∧ (env.ifexited = true → env.exitstatus = 0)) := by
  obtain ⟨s, w, c, wa, e, st⟩ := env
  simp only [pipe_data]
  cases s <;> cases w <;> cases c <;> cases wa <;> cases e <;>
    by_cases hst : st = 0 <;> simp_all

theorem C2_pipe_data_success_iff_witness :
    pipe_data okEnv = true :=
  (C2_pipe_data_success_iff okEnv).mpr (by decide)

/-- C6 counterexample: with no arguments at all — hence an empty command
vector — init succeeds with the default configuration instead of reporting a
configuration error, so the process does not exit before attempting
input. -/
theorem C6_counterexample :
    init [] = .ok ⟨8192, none, []⟩ := by
  decide

/-- C6 amended: init performs no validation of the command vector (any
argument list with no leading options is accepted unchanged, including the
empty one), and the missing command surfaces only later: with empty input
the run still completes successfully with no child invocation at all, while
flushing a chunk spawns a child whose failure to exec (it exits with status
255) makes the run fail with a pipe error. -/
theorem C6_missing_command_not_checked :
    (∀ rest : List (List Char),
      init (['c'] :: rest) = .ok ⟨8192, none, ['c'] :: rest⟩) ∧
    (run 8192 [Ev.read []] [⟨true, true, true, true, true, 255⟩]).outcome =
      .ok ∧
    (run 8192 [Ev.read []] [⟨true, true, true, true, true, 255⟩]).chunks =
      [] ∧
    (run 8192 [Ev.read [104, 10]] [⟨true, true, true, true, true, 255⟩]).outcome =
      .pipeErr := by
  refine ⟨fun rest => rfl, by decide, by decide, by decide⟩

/-- C9 counterexample: the string "0" does not denote an integer strictly
greater than zero, yet parse_size accepts it and init accepts -b 0, so the
buffer-size flag is not validated to be positive. -/
theorem C9_counterexample :
    parse_size ['0'] = some 0 ∧
      init [['-', 'b'], ['0'], ['c']] = .ok ⟨0, none, [['c']]⟩ := by
  decide

theorem strtoimax10_le_max (s : List Char) :
    (strtoimax10 s).1 ≤ INTMAX_MAX := by
  unfold strtoimax10
  simp only []
  split
  · unfold INTMAX_MAX
    omega
  · split
    · exact le_refl _
    · split
      · unfold INTMAX_MAX INTMAX_MIN
        omega
      · rename_i hgt _
        omega

/-- C9 amended: parse_size (the -b validation) accepts exactly the strings
that the strtoimax model fully consumes (optional leading whitespace and one
sign, then digits reaching the end of the string) with a nonnegative value
and no intmax_t overflow.  In particular "0" is accepted — strict positivity
is not enforced — and the SIZE_MAX limit never rejects anything, because the
value is already capped at INTMAX_MAX. -/
theorem C9_bufsize_validation (s : List Char) :
    (parse_size s).isSome = true ↔
      (0 < (strtoimax10 s).2.1 ∧ (strtoimax10 s).2.1 = s.length ∧
       ¬(((strtoimax10 s).1 = INTMAX_MAX ∨ (strtoimax10 s).1 = INTMAX_MIN) ∧
         (strtoimax10 s).2.2 = true) ∧
       0 ≤ (strtoimax10 s).1) := by
  have hle : (strtoimax10 s).1 ≤ INTMAX_MAX := strtoimax10_le_max s
  unfold parse_size parse_uint
  simp only []
  constructor
  · intro h
    split at h
    · simp at h
    · split at h
      · simp at h
      · split at h
        · simp at h
        · split at h
          · simp at h
          · refine ⟨by omega, by tauto, by assumption, by omega⟩
  · rintro ⟨ha, hb, hc, hd⟩
    rw [if_neg (by omega), if_neg (by simp [hb]), if_neg hc,
      if_neg (by omega),
      if_neg (by unfold INTMAX_MAX at hle; unfold SIZE_MAX; omega)]
    simp

theorem C9_bufsize_validation_witness :
    (parse_size ['4', '2']).isSome = true :=
  (C9_bufsize_validation ['4', '2']).mpr (by decide)

/-- C8 counterexample: with timeout 3 and a partial line trickling in with
inter-arrival gaps of 2 seconds after a complete line arrived at time 0, the
code (per-read timeout, runTimedAux) never times out and delivers one chunk
at end of stream, whereas the claimed behavior (deadline armed at the first
byte and kept fixed until the next flush, runDeadlineSpec) times out at time
3 and delivers the complete line separately — so the code does not implement
a deadline armed once per flush cycle that later reads cannot extend. -/
theorem C8_counterexample :
    (runTimedAux 100 3 0 [] [] [] []
        [(0, [120, 10]), (2, [97]), (4, [98])]).chunks =
      [[120, 10, 97, 98]] ∧
    (runDeadlineSpec 100 3 none [] [] [] []
        [(0, [120, 10]), (2, [97]), (4, [98])]).chunks =
      [[120, 10], [97, 98]] ∧
    runTimedAux 100 3 0 [] [] [] [] [(0, [120, 10]), (2, [97]), (4, [98])] ≠
      runDeadlineSpec 100 3 none [] [] [] []
        [(0, [120, 10]), (2, [97]), (4, [98])] := by
  decide

/-- C8 amended: the read timeout is applied to every try_read call afresh
(the constant configured timeout is passed to select on every call), so the
timed run equals the untimed run — no timeout ever fires — whenever every
inter-arrival gap is at most the timeout, regardless of how much total time
passes since the first byte after a flush; there is no per-flush-cycle
deadline. -/
theorem C8_per_read_timeout (bufsize t : Nat) (sched : List (Nat × List Nat)) :
    ∀ (now : Nat) (envs : List ChildEnv) (pending : List Nat)
      (chunks : List (List Nat)) (consumed : List Nat),
      gapsOk t now sched = true →
      runTimedAux bufsize t now envs pending chunks consumed sched =
        runAux bufsize envs pending chunks consumed
          (sched.map fun e => Ev.read e.2) := by
  induction sched with
  | nil =>
      intro now envs pending chunks consumed _
      rfl
  | cons e sched ih =>
      obtain ⟨a, b⟩ := e
      intro now envs pending chunks consumed hg
      simp only [gapsOk, Bool.and_eq_true, decide_eq_true_eq] at hg
      obtain ⟨⟨h1, h2⟩, h3⟩ := hg
      simp only [runTimedAux, List.map_cons, runAux]
      rw [if_pos h2]
      simp only [doTimeouts]
      split
      · rfl
      · rw [Nat.max_eq_right h1]
        exact ih a _ _ _ _ h3

theorem C8_per_read_timeout_witness :
    gapsOk 3 0 [(0, [120, 10]), (2, [97]), (4, [98])] = true ∧
    runTimedAux 100 3 0 [] [] [] [] [(0, [120, 10]), (2, [97]), (4, [98])] =
      runAux 100 [] [] [] []
        [Ev.read [120, 10], Ev.read [97], Ev.read [98]] := by
  refine ⟨by decide, ?_⟩
  have h := C8_per_read_timeout 100 3 [(0, [120, 10]), (2, [97]), (4, [98])]
    0 [] [] [] [] (by decide)
  simpa using h

end Xpipe
